import Mathlib

/-
Verification of the channel-selection, flag-reconciliation and external-process
supervision pipeline of akutkin/acompress (src/compress.py), via a shallow
embedding of its functions as executable Lean definitions.

Conventions:
- numpy boolean arrays along the channel axis are modelled as `List Bool`;
  channel frequency tables as `List ℚ` (the algorithmic content of the float
  computations — absolute differences, argmin with first-occurrence ties — is
  order-theoretic and is preserved by any ordered field).
- Python exceptions are modelled by an explicit error type `PyErr`; a function
  that can raise returns `Except PyErr _`.
- `logging` calls are modelled by a returned trace of `LogEntry` values.
- The external DPPP process is modelled by its observable polling behaviour: a
  function `Nat → Option Int` giving, for each poll iteration, `some code` if
  the process has terminated by that poll and `none` otherwise.
-/

namespace Compress

/-- Severity levels of the `logging` module calls that occur in the source. -/
inductive Severity where
  | debug
  | info
  | error
  deriving DecidableEq, Repr

/-- One emitted log record: severity plus the (formatted) message. -/
structure LogEntry where
  sev : Severity
  msg : String
  deriving DecidableEq, Repr

/-- Python exceptions raised by the modelled code paths. -/
inductive PyErr where
  /-- `RuntimeError` as raised explicitly in `replace_bad_col`. -/
  | runtimeError
  /-- numpy broadcast failure (`ValueError`) on a mismatched slice assignment. -/
  | valueError
  /-- `IndexError` on indexing an empty array with `[-1]`. -/
  | indexError
  deriving DecidableEq, Repr

/-- Module constant `_POOL_TIME = 10` (seconds). -/
def _POOL_TIME : Nat := 10

/-- Module constant `_MAX_COMPRESS_TIME = 24 * 3600` (seconds). -/
def _MAX_COMPRESS_TIME : Nat := 24 * 3600

/-- Module constant `_MAX_POOL = _MAX_COMPRESS_TIME // _POOL_TIME`. -/
def _MAX_POOL : Nat := _MAX_COMPRESS_TIME / _POOL_TIME

/-! ### numpy primitives used by `replace_bad_col`

`replace_bad_col`'s deficit branch performs the in-place numpy assignments
`bad[:-1] = good` and `bad[-1] = good[-1]`.  numpy assigns a source array into
the slice `target[:-1]` only when the source's length equals the slice's
length, or the source has length 1 (which broadcasts to any slice length,
including 0); otherwise it raises `ValueError`.  Indexing `[-1]` on an empty
array raises `IndexError`. -/

/-- numpy slice assignment `target[:-1] = source` (1-D, with broadcasting). -/
def npAssignDropLastSlice (target source : List Bool) : Except PyErr (List Bool) :=
  if source.length = target.length - 1 then
    Except.ok (source ++ target.drop (target.length - 1))
  else if source.length = 1 then
    Except.ok (List.replicate (target.length - 1) (source.headD false) ++
      target.drop (target.length - 1))
  else
    Except.error PyErr.valueError

/-- numpy element read `xs[-1]`. -/
def npGetLastElt (xs : List Bool) : Except PyErr Bool :=
  match xs.getLast? with
  | none => Except.error PyErr.indexError
  | some v => Except.ok v

/-- numpy element assignment `target[-1] = v`. -/
def npSetLastElt (target : List Bool) (v : Bool) : Except PyErr (List Bool) :=
  if target.isEmpty then Except.error PyErr.indexError
  else Except.ok (target.dropLast ++ [v])

/-- Embedding of `replace_bad_col(bad, good)` (src/compress.py lines 78-89),
viewed along the channel axis.  Returns the emitted log trace together with
either the value the Python function returns or the exception it raises:

    if len(bad) == len(good):       bad = good
    elif len(bad) == len(good) + 1: bad = good[:-1]
    elif len(bad) == len(good) - 1: bad[:-1] = good; bad[-1] = good[-1]
    else: logging.error(...); raise RuntimeError(...)
    return bad
-/
def replace_bad_col (bad good : List Bool) : List LogEntry × Except PyErr (List Bool) :=
  if bad.length = good.length then
    ([], Except.ok good)
  else if bad.length = good.length + 1 then
    ([], Except.ok good.dropLast)
  else if bad.length + 1 = good.length then
    match npAssignDropLastSlice bad good with
    | Except.error e => ([], Except.error e)
    | Except.ok bad1 =>
      match npGetLastElt good with
      | Except.error e => ([], Except.error e)
      | Except.ok g =>
        match npSetLastElt bad1 g with
        | Except.error e => ([], Except.error e)
        | Except.ok bad2 => ([], Except.ok bad2)
  else
    ([LogEntry.mk Severity.error "FLAG columns shapes differ! Check the data!"],
     Except.error PyErr.runtimeError)

/-! ### Exit-code checking -/

/-- Outcome of `check_return_code`: return normally, raise `SystemExit(code)`,
or raise `TypeError` (Python 3 comparison `None > 0`). -/
inductive CheckResult where
  | ok
  | systemExit (code : Int)
  | typeError
  deriving DecidableEq, Repr

/-- Embedding of `check_return_code(return_code)` (src/compress.py lines
127-132).  Its argument is the value returned by `execute_dppp`, which is an
`int` exit code or `None` when the poll budget was exhausted; in Python 3 the
comparison `None > 0` raises `TypeError`. -/
def check_return_code (return_code : Option Int) : CheckResult :=
  match return_code with
  | none => CheckResult.typeError
  | some c => if c > 0 then CheckResult.systemExit c else CheckResult.ok

/-! ### Process supervision -/

/-- The polling loop of `execute_dppp` (src/compress.py lines 116-124):
`for i in range(fuel)` starting at iteration `i`, each iteration waits on the
process (`proc i = some code` when the process has terminated by poll `i`);
on completion the exit code is returned, otherwise the loop continues.
Returns the number of poll iterations executed together with the result
(`none` models Python falling off the loop and returning `None`). -/
def pollLoop (proc : Nat → Option Int) : Nat → Nat → Nat × Option Int
  | _, 0 => (0, none)
  | i, fuel + 1 =>
    match proc i with
    | some c => (1, some c)
    | none =>
      let r := pollLoop proc (i + 1) fuel
      (r.1 + 1, r.2)

/-- Embedding of `execute_dppp(args)`: run the polling loop from iteration 0
with budget `_MAX_POOL`, returning the exit code or `None`. -/
def execute_dppp (proc : Nat → Option Int) : Option Int :=
  (pollLoop proc 0 _MAX_POOL).2

/-- Number of poll iterations `execute_dppp` executes for a given process. -/
def execute_dppp_polls (proc : Nat → Option Int) : Nat :=
  (pollLoop proc 0 _MAX_POOL).1

/-- A process that terminates with exit code `c` during poll interval `t`
(0-indexed): every poll from iteration `t` on observes termination. -/
def procCompletesAt (t : Nat) (c : Int) : Nat → Option Int :=
  fun i => if t ≤ i then some c else none

/-- The step sequencing of `main` for the compress path, reduced to its
exit-code control flow: `split_ms` runs DPPP and checks the return code; only
if that check returns normally does `compress` run DPPP and check its return
code.  The returned list records which external steps were invoked. -/
def split_then_compress (split_code compress_code : Option Int) :
    List String × CheckResult :=
  match check_return_code split_code with
  | CheckResult.ok => (["split", "compress"], check_return_code compress_code)
  | r => (["split"], r)

/-! ### Frequency resolution -/

/-- Inner scan of `np.argmin(np.abs(array - value))`: walk the remaining list
`ys` whose head sits at global index `i`, carrying the best (index, absolute
difference) seen so far; a later element replaces the best only on a strictly
smaller difference, so the first occurrence of the minimum wins. -/
def argminGo (v : ℚ) : List ℚ → Nat → Nat × ℚ → Nat × ℚ
  | [], _, best => best
  | x :: xs, i, best =>
    if |x - v| < best.2 then argminGo v xs (i + 1) (i, |x - v|)
    else argminGo v xs (i + 1) best

/-- Embedding of `find_nearest(array, value)` (src/compress.py lines 25-28):
`idx = np.abs(array - value).argmin(); return idx, array[idx]`.  On an empty
array `np.argmin` raises, modelled by `none`. -/
def find_nearest (array : List ℚ) (value : ℚ) : Option (Nat × ℚ) :=
  match array with
  | [] => none
  | a :: rest =>
    let best := argminGo value rest 1 (0, |a - value|)
    some (best.1, array.getD best.1 0)

/-- The loop of `get_freq_chans` building `chans`: one nearest-channel index
per requested frequency, in input order. -/
def chans_of (msfreqs : List ℚ) : List ℚ → Option (List Nat)
  | [] => some []
  | f :: fs =>
    match find_nearest msfreqs f, chans_of msfreqs fs with
    | some (i, _), some rest => some (i :: rest)
    | _, _ => none

/-- Result of `get_freq_chans`: a bare index when exactly one frequency was
requested, otherwise the list of indices. -/
inductive FreqChans where
  | scalar (i : Nat)
  | seq (is : List Nat)
  deriving DecidableEq, Repr

/-- The list of indices carried by a `FreqChans` value. -/
def FreqChans.toList : FreqChans → List Nat
  | FreqChans.scalar i => [i]
  | FreqChans.seq l => l

/-- Embedding of `get_freq_chans(msin, freqs)` (src/compress.py lines 31-45)
for an iterable `freqs` argument, with the dataset's `CHAN_FREQ` table passed
as `msfreqs`: build `chans` by `find_nearest` per frequency, then collapse a
singleton list to its sole element. -/
def get_freq_chans (msfreqs freqs : List ℚ) : Option FreqChans :=
  match chans_of msfreqs freqs with
  | none => none
  | some chans =>
    some (if chans.length = 1 then FreqChans.scalar (chans.headD 0)
          else FreqChans.seq chans)

/-- `i` is an index of `xs` minimizing `|xs[i] - v|`, with ties resolved to
the lowest index: every earlier index has a strictly larger difference. -/
def isNearest (xs : List ℚ) (v : ℚ) (i : Nat) : Prop :=
  i < xs.length ∧
  (∀ j, j < xs.length → |xs.getD i 0 - v| ≤ |xs.getD j 0 - v|) ∧
  (∀ j, j < i → |xs.getD i 0 - v| < |xs.getD j 0 - v|)

/-! ## Theorems -/

/-- In the deficit branch (`len(bad) == len(good) - 1`) the numpy assignment
`bad[:-1] = good` tries to broadcast `len(bad) + 1` elements into a slice of
`len(bad) - 1` slots, so the branch always raises: `ValueError` when `bad` is
non-empty, and (after a vacuous empty-slice assignment) `IndexError` from
`bad[-1] = good[-1]` when `bad` is empty. -/
lemma replace_bad_col_deficit (bad good : List Bool)
    (h : bad.length + 1 = good.length) :
    replace_bad_col bad good =
      ([], Except.error
        (if bad.length = 0 then PyErr.indexError else PyErr.valueError)) := by
  cases bad with
  | nil =>
    obtain ⟨g, rfl⟩ : ∃ g, good = [g] := by
      cases good with
      | nil => simp at h
      | cons a t =>
        cases t with
        | nil => exact ⟨a, rfl⟩
        | cons b u => simp at h
    cases g <;> rfl
  | cons b bs =>
    have h1 : ¬ (b :: bs).length = good.length := by simp at h ⊢; omega
    have h2 : ¬ (b :: bs).length = good.length + 1 := by simp at h ⊢; omega
    have hv : npAssignDropLastSlice (b :: bs) good = Except.error PyErr.valueError := by
      have h4 : ¬ (good.length = (b :: bs).length - 1) := by simp at h ⊢; omega
      have h5 : ¬ (good.length = 1) := by simp at h; omega
      simp only [npAssignDropLastSlice, if_neg h4, if_neg h5]
    simp only [replace_bad_col, if_neg h1, if_neg h2, if_pos h, hv]
    rfl

/-- Claim C1: the spec states that for `len(bad) = len(good) + 1` the output
has length `len(bad)`, its first `len(good)` entries equal `good`, and its
last entry is `bad`'s last entry.  The code's surplus branch instead executes
`bad = good[:-1]` and returns `good` shorn of its own last element, of length
`len(good) - 1 = len(bad) - 2`: at `bad = [false, true]`, `good = [true]` it
returns the empty list instead of a length-2 list ending in `true`. -/
theorem c1_surplus_branch_result :
    replace_bad_col [false, true] [true] = ([], Except.ok []) ∧
    ([] : List Bool).length ≠ ([false, true] : List Bool).length :=
  ⟨rfl, by decide⟩

/-- Claim C2: the spec states that for `len(bad) = len(good) - 1` the call
returns, without error, an output of length `len(good)`.  The code's deficit
branch executes `bad[:-1] = good`, a numpy broadcast of `len(good)` elements
into `len(good) - 2` slots, which raises `ValueError`: at `bad = [false]`,
`good = [false, true]` no value is returned. -/
theorem c2_deficit_branch_raises :
    replace_bad_col [false] [false, true] = ([], Except.error PyErr.valueError) :=
  rfl

/-- Claim C6: `replace_bad_col` raises its `RuntimeError` (the
`ShapeMismatchError` of the spec) exactly when the two lengths differ by more
than one, and exactly then it emits the error-severity log record
`FLAG columns shapes differ! Check the data!` (the log trace of every other
branch is empty). -/
theorem c6_shape_mismatch : ∀ bad good : List Bool,
    ((replace_bad_col bad good).2 = Except.error PyErr.runtimeError ↔
      good.length + 1 < bad.length ∨ bad.length + 1 < good.length) ∧
    (replace_bad_col bad good).1 =
      (if good.length + 1 < bad.length ∨ bad.length + 1 < good.length then
        [LogEntry.mk Severity.error "FLAG columns shapes differ! Check the data!"]
      else []) := by
  intro bad good
  by_cases hd : good.length + 1 < bad.length ∨ bad.length + 1 < good.length
  · have h1 : ¬ bad.length = good.length := by omega
    have h2 : ¬ bad.length = good.length + 1 := by omega
    have h3 : ¬ (bad.length + 1 = good.length) := by omega
    simp only [replace_bad_col, if_neg h1, if_neg h2, if_neg h3]
    rw [if_pos hd]
    refine ⟨?_, rfl⟩
    simp [hd]
  · by_cases h1 : bad.length = good.length
    · simp only [replace_bad_col, if_pos h1]
      refine ⟨?_, by rw [if_neg hd]⟩
      simp [hd]
    · by_cases h2 : bad.length = good.length + 1
      · simp only [replace_bad_col, if_neg h1, if_pos h2]
        refine ⟨?_, by rw [if_neg hd]⟩
        simp [hd]
      · have h3 : bad.length + 1 = good.length := by omega
        rw [replace_bad_col_deficit bad good h3]
        refine ⟨?_, by rw [if_neg hd]⟩
        by_cases hb : bad.length = 0
        · simp [hd, hb]
          omega
        · simp [hd, hb]

/-- Claim C7: with equal lengths, `replace_bad_col` returns exactly `good`
(the equal-extent branch executes `bad = good; return bad`), emitting no log
record and raising nothing. -/
theorem c7_equal_extent (bad good : List Bool) (h : bad.length = good.length) :
    replace_bad_col bad good = ([], Except.ok good) := by
  simp [replace_bad_col, h]

/-- Witness for claim C7 at the concrete masks `bad = [true]`,
`good = [false]`. -/
theorem c7_equal_extent_witness :
    replace_bad_col [true] [false] = ([], Except.ok [false]) :=
  c7_equal_extent [true] [false] rfl

/-- Claim C9: the spec states that every branch produces a fresh output and
leaves both inputs unmodified.  In the deficit branch the code produces no
output at all: at `bad = [true, false]`, `good = [true, false, true]` the
in-place assignment `bad[:-1] = good` raises `ValueError` (and the equal and
surplus branches return the reference object `good`, respectively the view
`good[:-1]`, rather than a fresh array). -/
theorem c9_deficit_branch_no_output :
    replace_bad_col [true, false] [true, false, true] =
      ([], Except.error PyErr.valueError) :=
  rfl

/-- The polling loop never executes more iterations than its budget. -/
lemma pollLoop_count_le (proc : Nat → Option Int) :
    ∀ fuel i, (pollLoop proc i fuel).1 ≤ fuel := by
  intro fuel
  induction fuel with
  | zero => intro i; simp [pollLoop]
  | succ n ih =>
    intro i
    cases h : proc i with
    | some c => simp [pollLoop, h]
    | none =>
      have := ih (i + 1)
      simp only [pollLoop, h]
      omega

/-- Against a process that terminates with code `c` during poll interval `t`,
a loop started at iteration `i ≤ t` with enough budget returns `c` after
exactly `t - i + 1` poll iterations. -/
lemma pollLoop_completes (c : Int) (t : Nat) :
    ∀ fuel i, i ≤ t → t < i + fuel →
      pollLoop (procCompletesAt t c) i fuel = (t - i + 1, some c) := by
  intro fuel
  induction fuel with
  | zero => intro i h1 h2; omega
  | succ n ih =>
    intro i h1 h2
    by_cases ht : t ≤ i
    · have h0 : t - i = 0 := by omega
      simp [pollLoop, procCompletesAt, ht, h0]
    · have hpr : procCompletesAt t c i = none := by
        simp only [procCompletesAt, if_neg ht]
      simp only [pollLoop, hpr]
      rw [ih (i + 1) (by omega) (by omega)]
      simp only [Prod.mk.injEq]
      exact ⟨by omega, trivial⟩

/-- A loop over a process that observes no termination within the budget
exhausts the whole budget and returns no result. -/
lemma pollLoop_all_none (proc : Nat → Option Int) :
    ∀ fuel i, (∀ j, i ≤ j → j < i + fuel → proc j = none) →
      pollLoop proc i fuel = (fuel, none) := by
  intro fuel
  induction fuel with
  | zero => intro i _; simp [pollLoop]
  | succ n ih =>
    intro i h
    have h0 : proc i = none := h i (le_refl i) (by omega)
    simp only [pollLoop, h0]
    rw [ih (i + 1) (fun j hj1 hj2 => h j (by omega) (by omega))]

/-- Claim C3: for a process that terminates (with any exit code `c`) during
poll interval `t` within the budget — including `t = 0`, before or during the
very first interval — `execute_dppp` returns exactly `c`, does so after
exactly `t + 1` poll iterations, and the loop never exceeds
`_MAX_POOL = 24 * 3600 / 10 = 8640` iterations for any process. -/
theorem c3_supervisor_returns_code (t : Nat) (c : Int) (h : t < _MAX_POOL) :
    execute_dppp (procCompletesAt t c) = some c ∧
    execute_dppp_polls (procCompletesAt t c) = t + 1 ∧
    execute_dppp_polls (procCompletesAt t c) ≤ 8640 ∧
    _MAX_POOL = 8640 ∧
    (∀ proc, execute_dppp_polls proc ≤ 8640) := by
  have hp := pollLoop_completes c t _MAX_POOL 0 (Nat.zero_le t) (by omega)
  have hM : _MAX_POOL = 8640 := rfl
  refine ⟨?_, ?_, ?_, hM, ?_⟩
  · simp [execute_dppp, hp]
  · simp [execute_dppp_polls, hp]
  · simp [execute_dppp_polls, hp]; omega
  · intro proc
    have hb := pollLoop_count_le proc _MAX_POOL 0
    simpa [execute_dppp_polls, hM] using hb

/-- Witness for claim C3 at a process that has already terminated (exit code
3) when the first poll happens. -/
theorem c3_supervisor_returns_code_witness :
    execute_dppp (procCompletesAt 0 3) = some 3 ∧
    execute_dppp_polls (procCompletesAt 0 3) = 0 + 1 ∧
    execute_dppp_polls (procCompletesAt 0 3) ≤ 8640 ∧
    _MAX_POOL = 8640 ∧
    (∀ proc, execute_dppp_polls proc ≤ 8640) :=
  c3_supervisor_returns_code 0 3 (by decide)

/-- Claim C4: `check_return_code` raises `SystemExit` carrying the same code
exactly when the code is positive, returns normally exactly when it is not,
and in the orchestrated sequence a split step whose DPPP process exits with
code 2 aborts the run with `SystemExit 2` with the compression step never
invoked. -/
theorem c4_check_exit_code : ∀ code : Int,
    (check_return_code (some code) = CheckResult.systemExit code ↔ 0 < code) ∧
    (check_return_code (some code) = CheckResult.ok ↔ code ≤ 0) ∧
    (∀ cc : Option Int,
      split_then_compress (some 2) cc = (["split"], CheckResult.systemExit 2)) := by
  intro code
  refine ⟨?_, ?_, fun cc => rfl⟩
  · by_cases h : code > 0
    · simp [check_return_code, h]
    · simp [check_return_code, h]
  · by_cases h : code > 0
    · simp [check_return_code, h]
    · simp [check_return_code, h]
      omega

/-- Claim C8: against a process that never terminates within the poll budget,
`execute_dppp` returns `None` — a value distinct from every exit code — and
`check_return_code` applied to that outcome raises `TypeError` (Python 3
refuses `None > 0`) and in particular never returns normally (success). -/
theorem c8_budget_exhausted (proc : Nat → Option Int)
    (h : ∀ i, i < _MAX_POOL → proc i = none) :
    execute_dppp proc = none ∧
    (∀ c : Int, execute_dppp proc ≠ some c) ∧
    check_return_code (execute_dppp proc) = CheckResult.typeError ∧
    check_return_code (execute_dppp proc) ≠ CheckResult.ok := by
  have hp := pollLoop_all_none proc _MAX_POOL 0 (fun j hj1 hj2 => h j (by omega))
  have he : execute_dppp proc = none := by simp [execute_dppp, hp]
  refine ⟨he, ?_, ?_, ?_⟩
  · intro c; rw [he]; simp
  · rw [he]; rfl
  · rw [he]; simp [check_return_code]

/-- Witness for claim C8 at the process that is still running at every poll. -/
theorem c8_budget_exhausted_witness :
    execute_dppp (fun _ => none) = none ∧
    (∀ c : Int, execute_dppp (fun _ => none) ≠ some c) ∧
    check_return_code (execute_dppp (fun _ => none)) = CheckResult.typeError ∧
    check_return_code (execute_dppp (fun _ => none)) ≠ CheckResult.ok :=
  c8_budget_exhausted (fun _ => none) (fun _ _ => rfl)

/-- Claim C10: a negative exit code — as reported when the external process is
killed by a signal — is not treated as fatal: `check_return_code` returns
normally on it, exactly as it does on exit code 0. -/
theorem c10_negative_code (code : Int) (h : code < 0) :
    check_return_code (some code) = CheckResult.ok ∧
    check_return_code (some code) = check_return_code (some 0) := by
  have h1 : ¬ code > 0 := by omega
  simp [check_return_code, h1]

/-- Witness for claim C10 at exit code -9 (the code `Popen` reports for a
process killed by SIGKILL). -/
theorem c10_negative_code_witness :
    check_return_code (some (-9)) = CheckResult.ok ∧
    check_return_code (some (-9)) = check_return_code (some 0) :=
  c10_negative_code (-9) (by norm_num)

/-- The argmin scan either keeps the carried best — and then no scanned
element beats it — or lands on a scanned element whose absolute difference is
strictly below the carried best, below every earlier scanned element, and at
most every scanned element. -/
lemma argminGo_spec (v : ℚ) :
    ∀ (ys : List ℚ) (i b : Nat) (bv : ℚ),
      (argminGo v ys i (b, bv) = (b, bv) ∧
        ∀ k, k < ys.length → bv ≤ |ys.getD k 0 - v|) ∨
      (∃ k, k < ys.length ∧
        argminGo v ys i (b, bv) = (i + k, |ys.getD k 0 - v|) ∧
        |ys.getD k 0 - v| < bv ∧
        (∀ j, j < k → |ys.getD k 0 - v| < |ys.getD j 0 - v|) ∧
        (∀ j, j < ys.length → |ys.getD k 0 - v| ≤ |ys.getD j 0 - v|)) := by
  intro ys
  induction ys with
  | nil =>
    intro i b bv
    left
    exact ⟨rfl, fun k hk => absurd hk (Nat.not_lt_zero k)⟩
  | cons y ys ih =>
    intro i b bv
    by_cases hy : |y - v| < bv
    · have h1 : argminGo v (y :: ys) i (b, bv) = argminGo v ys (i + 1) (i, |y - v|) := by
        simp [argminGo, hy]
      rcases ih (i + 1) i (|y - v|) with ⟨heq, hmin⟩ | ⟨k, hk, heq, hlt, hfirst, hmin⟩
      · right
        refine ⟨0, by simp, ?_, by simpa using hy, ?_, ?_⟩
        · rw [h1, heq]
          simp
        · intro j hj
          omega
        · intro j hj
          cases j with
          | zero => simp
          | succ j' =>
            simp only [List.getD_cons_zero, List.getD_cons_succ]
            exact hmin j' (by simp at hj; omega)
      · right
        refine ⟨k + 1, by simp; omega, ?_, ?_, ?_, ?_⟩
        · rw [h1, heq]
          simp only [List.getD_cons_succ, Prod.mk.injEq]
          exact ⟨by omega, trivial⟩
        · simp only [List.getD_cons_succ]
          exact lt_trans hlt hy
        · intro j hj
          cases j with
          | zero =>
            simp only [List.getD_cons_succ, List.getD_cons_zero]
            exact hlt
          | succ j' =>
            simp only [List.getD_cons_succ]
            exact hfirst j' (by omega)
        · intro j hj
          cases j with
          | zero =>
            simp only [List.getD_cons_succ, List.getD_cons_zero]
            exact le_of_lt hlt
          | succ j' =>
            simp only [List.getD_cons_succ]
            exact hmin j' (by simp at hj; omega)
    · have hy' : bv ≤ |y - v| := not_lt.mp hy
      have h1 : argminGo v (y :: ys) i (b, bv) = argminGo v ys (i + 1) (b, bv) := by
        simp [argminGo, hy]
      rcases ih (i + 1) b bv with ⟨heq, hmin⟩ | ⟨k, hk, heq, hlt, hfirst, hmin⟩
      · left
        refine ⟨by rw [h1, heq], ?_⟩
        intro k hk
        cases k with
        | zero => simpa using hy'
        | succ k' =>
          simp only [List.getD_cons_succ]
          exact hmin k' (by simp at hk; omega)
      · right
        refine ⟨k + 1, by simp; omega, ?_, ?_, ?_, ?_⟩
        · rw [h1, heq]
          simp only [List.getD_cons_succ, Prod.mk.injEq]
          exact ⟨by omega, trivial⟩
        · simp only [List.getD_cons_succ]
          exact hlt
        · intro j hj
          cases j with
          | zero =>
            simp only [List.getD_cons_succ, List.getD_cons_zero]
            exact lt_of_lt_of_le hlt hy'
          | succ j' =>
            simp only [List.getD_cons_succ]
            exact hfirst j' (by omega)
        · intro j hj
          cases j with
          | zero =>
            simp only [List.getD_cons_succ, List.getD_cons_zero]
            exact le_trans (le_of_lt hlt) hy'
          | succ j' =>
            simp only [List.getD_cons_succ]
            exact hmin j' (by simp at hj; omega)

/-- On a non-empty channel table, `find_nearest` returns the index of the
channel frequency nearest to `v`, ties resolved to the lowest index, paired
with the frequency at that index. -/
lemma find_nearest_isNearest (array : List ℚ) (v : ℚ) (hne : array ≠ []) :
    ∃ i f, find_nearest array v = some (i, f) ∧ isNearest array v i ∧
      f = array.getD i 0 := by
  cases array with
  | nil => exact absurd rfl hne
  | cons a rest =>
    rcases argminGo_spec v rest 1 0 (|a - v|) with ⟨heq, hmin⟩ |
      ⟨k, hk, heq, hlt, hfirst, hmin⟩
    · refine ⟨0, (a :: rest).getD 0 0, ?_, ⟨by simp, ?_, ?_⟩, rfl⟩
      · simp [find_nearest, heq]
      · intro j hj
        cases j with
        | zero => exact le_refl _
        | succ j' =>
          simp only [List.getD_cons_zero, List.getD_cons_succ]
          exact hmin j' (by simp at hj; omega)
      · intro j hj
        omega
    · refine ⟨1 + k, (a :: rest).getD (1 + k) 0, ?_, ⟨by simp; omega, ?_, ?_⟩, rfl⟩
      · simp [find_nearest, heq]
      · intro j hj
        rw [show 1 + k = k + 1 from by omega]
        cases j with
        | zero =>
          simp only [List.getD_cons_succ, List.getD_cons_zero]
          exact le_of_lt hlt
        | succ j' =>
          simp only [List.getD_cons_succ]
          exact hmin j' (by simp at hj; omega)
      · intro j hj
        rw [show 1 + k = k + 1 from by omega]
        cases j with
        | zero =>
          simp only [List.getD_cons_succ, List.getD_cons_zero]
          exact hlt
        | succ j' =>
          simp only [List.getD_cons_succ]
          exact hfirst j' (by omega)

/-- The `chans` list built by `get_freq_chans` has one entry per requested
frequency, in input order, each the nearest channel index for its
frequency. -/
lemma chans_of_spec (msfreqs : List ℚ) (hne : msfreqs ≠ []) :
    ∀ freqs : List ℚ, ∃ chans : List Nat,
      chans_of msfreqs freqs = some chans ∧
      chans.length = freqs.length ∧
      ∀ k, k < freqs.length → isNearest msfreqs (freqs.getD k 0) (chans.getD k 0) := by
  intro freqs
  induction freqs with
  | nil => exact ⟨[], rfl, rfl, fun k hk => absurd hk (Nat.not_lt_zero k)⟩
  | cons f fs ih =>
    obtain ⟨chans, hc, hlen, hnear⟩ := ih
    obtain ⟨i, fv, hf, hnear0, _⟩ := find_nearest_isNearest msfreqs f hne
    refine ⟨i :: chans, ?_, by simp [hlen], ?_⟩
    · simp [chans_of, hf, hc]
    · intro k hk
      cases k with
      | zero => simpa using hnear0
      | succ k' =>
        simp only [List.getD_cons_succ]
        exact hnear k' (by simp at hk; omega)

/-- Claim C5: on a non-empty channel-frequency table, `get_freq_chans`
resolves an ordered sequence of requested frequencies to one channel index
per input frequency, in input order (a singleton list being collapsed to its
sole index), where the index for the k-th frequency independently minimizes
the absolute difference to the channel frequencies, ties resolved to the
lowest index. -/
theorem c5_frequency_resolution (msfreqs freqs : List ℚ) (hne : msfreqs ≠ []) :
    ∃ chans : List Nat,
      chans_of msfreqs freqs = some chans ∧
      get_freq_chans msfreqs freqs =
        some (if chans.length = 1 then FreqChans.scalar (chans.headD 0)
              else FreqChans.seq chans) ∧
      chans.length = freqs.length ∧
      ∀ k, k < freqs.length → isNearest msfreqs (freqs.getD k 0) (chans.getD k 0) := by
  obtain ⟨chans, hc, hlen, hnear⟩ := chans_of_spec msfreqs hne freqs
  exact ⟨chans, hc, by simp [get_freq_chans, hc], hlen, hnear⟩

/-- Witness for claim C5 at the table `[1, 3]` and requested frequencies
`[2, 0]` (the first request ties between both channels and resolves to
index 0; the second resolves to index 0). -/
theorem c5_frequency_resolution_witness :
    ∃ chans : List Nat,
      chans_of [1, 3] [2, 0] = some chans ∧
      get_freq_chans [1, 3] [2, 0] =
        some (if chans.length = 1 then FreqChans.scalar (chans.headD 0)
              else FreqChans.seq chans) ∧
      chans.length = ([2, 0] : List ℚ).length ∧
      ∀ k, k < ([2, 0] : List ℚ).length →
        isNearest [1, 3] (([2, 0] : List ℚ).getD k 0) (chans.getD k 0) :=
  c5_frequency_resolution [1, 3] [2, 0] (by simp)

end Compress
